import Mathlib

/-!
Shallow embedding of `src/gen_waveforms.py` (`visualize_waveform`).

The data path of the script (lines 35–95) is, per channel:
  * derive `downsample_factor` from `total_samples` and `target_points` (lines 42–46);
  * read the stream in blocks of `chunk_size_samples = samplerate * 5` frames (lines 50, 57–58);
  * inside each block, slice the channel data into consecutive windows of
    `downsample_factor` samples (`for j in range(0, len(channel_data), downsample_factor)`,
    lines 64–65) and, for each non-empty window, append `np.max(window)`,
    `np.min(window)` to the value list and the clip flag twice to the flag list
    (lines 66–74), where the flag is `np.any(np.abs(window) >= 1.0 - 1e-6)`;
  * build the time axis `np.linspace(0, total_duration, N)` where `N` is the
    per-channel output length (lines 93–95).

Samples are modelled as rationals; machine-float rounding is idealized away.
-/

namespace GenWaveforms

/-- Fuel-indexed window slicing.  One step mirrors one iteration of
`for j in range(0, len(channel_data), downsample_factor)` taking the slice
`channel_data[j:j+step]`.  The fuel (set to the list length at the wrapper)
only forces structural recursion; it never runs out. -/
def chunkWindowsF : Nat → Nat → List ℚ → List (List ℚ)
  | 0, _, _ => []
  | _ + 1, _, [] => []
  | fuel + 1, step, x :: xs =>
      (x :: xs.take (step - 1)) :: chunkWindowsF fuel step (xs.drop (step - 1))

/-- Slice a list into consecutive windows of `step` samples, the last one
possibly shorter — the slicing of lines 64–65 of the source. -/
def chunkWindows (step : Nat) (l : List ℚ) : List (List ℚ) :=
  chunkWindowsF l.length step l

/-- `np.max(window)` on a non-empty window (0 as the unused default). -/
def wMax : List ℚ → ℚ
  | [] => 0
  | x :: xs => xs.foldl max x

/-- `np.min(window)` on a non-empty window (0 as the unused default). -/
def wMin : List ℚ → ℚ
  | [] => 0
  | x :: xs => xs.foldl min x

/-- `np.any(np.abs(window) >= clip_threshold)` (line 72). -/
def isClipped (thr : ℚ) (w : List ℚ) : Bool :=
  w.any fun s => decide (thr ≤ |s|)

/-- Per-channel accumulators `downsampled_data[i]` and `clipped_status[i]`
(lines 53–54). -/
structure ChanAcc where
  values : List ℚ
  flags : List Bool
  deriving DecidableEq

/-- Flushing one window (lines 66–74): append max then min, and the clip flag
twice, "add it twice for the min/max pair". -/
def flushWindow (thr : ℚ) (acc : ChanAcc) (w : List ℚ) : ChanAcc :=
  { values := acc.values ++ [wMax w, wMin w]
    flags := acc.flags ++ [isClipped thr w, isClipped thr w] }

/-- The inner loop of lines 64–74 over one block's data for one channel:
note the windowing restarts from `j = 0` in every block. -/
def processChannelBlock (factor : Nat) (thr : ℚ) (acc : ChanAcc)
    (channelData : List ℚ) : ChanAcc :=
  (chunkWindows factor channelData).foldl (flushWindow thr) acc

/-- The block loop of lines 58–74, restricted to one channel (channels do not
interact: each channel's accumulators only see that channel's column). -/
def processChannelBlocks (factor : Nat) (thr : ℚ) (blocks : List (List ℚ)) : ChanAcc :=
  blocks.foldl (processChannelBlock factor thr) ⟨[], []⟩

/-- All windows actually formed by the code, in emission order: per block,
the windows of that block. -/
def allWindows (factor : Nat) (blocks : List (List ℚ)) : List (List ℚ) :=
  blocks.flatMap (chunkWindows factor)

/-- `target_points = 50000` (line 42). -/
def targetPoints : Nat := 50000

/-- `1.0 - 1e-6` (line 72). -/
def clipThresholdDefault : ℚ := 1 - 1 / 1000000

/-- Lines 43–46: `int(total_samples / target_points)` when
`total_samples > target_points`, else `1`. -/
def downsampleFactor (totalSamples target : Nat) : Nat :=
  if target < totalSamples then totalSamples / target else 1

/-- Lines 57–74 for one channel: `f.blocks(blocksize=chunk_size_samples)`
splits the channel's sample stream into consecutive blocks, then each block is
windowed and reduced. -/
def reduceBlocked (factor : Nat) (thr : ℚ) (chunkSize : Nat)
    (samples : List ℚ) : ChanAcc :=
  processChannelBlocks factor thr (chunkWindows chunkSize samples)

/-- `np.linspace(0, d, n)` (line 95): `n` evenly spaced points from `0` to `d`
inclusive; `[0]` for `n = 1`, `[]` for `n = 0`. -/
def linspace (d : ℚ) (n : Nat) : List ℚ :=
  if n = 0 then []
  else if n = 1 then [0]
  else (List.range n).map fun i : ℕ => d * (i : ℚ) / ((n : ℚ) - 1)

/-- The per-channel observable output of the script: the downsampled values,
the clip flags, and the shared time axis. -/
structure PipelineOutput where
  values : List ℚ
  flags : List Bool
  timeAxis : List ℚ
  deriving DecidableEq

/-- The whole single-channel data path of `visualize_waveform` (lines 35–95):
derived downsample factor (`target_points = 50000`), chunk size
`samplerate * 5`, hard-coded clip threshold `1.0 - 1e-6`, and time axis
`np.linspace(0, total_samples / samplerate, N)` with `N` the output length. -/
def pipeline (samplerate : Nat) (samples : List ℚ) : PipelineOutput :=
  let totalSamples := samples.length
  let factor := downsampleFactor totalSamples targetPoints
  let chunkSize := samplerate * 5
  let acc := reduceBlocked factor clipThresholdDefault chunkSize samples
  let totalDuration : ℚ := (totalSamples : ℚ) / (samplerate : ℚ)
  { values := acc.values
    flags := acc.flags
    timeAxis := linspace totalDuration acc.values.length }

/-- Reference reducer written from the spec's words (refinement baseline):
"the blocked implementation equals an unblocked reference that windows the
whole concatenated sample stream" — windows are laid over the entire sample
stream at once, ignoring blocking. -/
def specUnchunkedReduce (factor : Nat) (thr : ℚ) (samples : List ℚ) : ChanAcc :=
  processChannelBlock factor thr ⟨[], []⟩ samples

/-! ### Structural lemmas about the window slicing -/

theorem chunkWindowsF_nil (fuel step : ℕ) : chunkWindowsF fuel step [] = [] := by
  cases fuel <;> rfl

theorem chunkWindowsF_congr (step : ℕ) :
    ∀ (f₁ f₂ : ℕ) (l : List ℚ), l.length ≤ f₁ → l.length ≤ f₂ →
      chunkWindowsF f₁ step l = chunkWindowsF f₂ step l := by
  intro f₁
  induction f₁ with
  | zero =>
    intro f₂ l h1 _
    have hl : l = [] := List.length_eq_zero.mp (Nat.le_zero.mp h1)
    subst hl
    rw [chunkWindowsF_nil, chunkWindowsF_nil]
  | succ n ih =>
    intro f₂ l h1 h2
    cases l with
    | nil => rw [chunkWindowsF_nil, chunkWindowsF_nil]
    | cons x xs =>
      cases f₂ with
      | zero => simp at h2
      | succ m =>
        simp only [List.length_cons] at h1 h2
        simp only [chunkWindowsF]
        congr 1
        exact ih m _ (by rw [List.length_drop]; omega) (by rw [List.length_drop]; omega)

theorem chunkWindows_nil (step : ℕ) : chunkWindows step [] = [] := rfl

theorem chunkWindows_cons (step : ℕ) (x : ℚ) (xs : List ℚ) :
    chunkWindows step (x :: xs) =
      (x :: xs.take (step - 1)) :: chunkWindows step (xs.drop (step - 1)) := by
  unfold chunkWindows
  simp only [List.length_cons, chunkWindowsF]
  congr 1
  exact chunkWindowsF_congr step xs.length _ _ (by rw [List.length_drop]; omega) le_rfl

/-- Recursion principle following the shape of the slicing loop. -/
theorem chunkWindows_rec (step : ℕ) (P : List ℚ → Prop) (h0 : P [])
    (h1 : ∀ x xs, P (xs.drop (step - 1)) → P (x :: xs)) (l : List ℚ) : P l := by
  have H : ∀ (n : ℕ) (l : List ℚ), l.length ≤ n → P l := by
    intro n
    induction n with
    | zero =>
      intro l h
      rw [List.length_eq_zero.mp (Nat.le_zero.mp h)]
      exact h0
    | succ n ih =>
      intro l h
      cases l with
      | nil => exact h0
      | cons x xs =>
        simp only [List.length_cons] at h
        exact h1 x xs (ih _ (by rw [List.length_drop]; omega))
  exact H l.length l le_rfl

theorem chunkWindows_length (step : ℕ) (hs : 1 ≤ step) (l : List ℚ) :
    (chunkWindows step l).length = (l.length + step - 1) / step := by
  refine chunkWindows_rec step
    (fun l => (chunkWindows step l).length = (l.length + step - 1) / step) ?_ ?_ l
  · show (chunkWindows step []).length = (List.length [] + step - 1) / step
    rw [chunkWindows_nil]
    simp only [List.length_nil, Nat.zero_add]
    exact (Nat.div_eq_of_lt (by omega)).symm
  · intro x xs ih
    rw [chunkWindows_cons]
    simp only [List.length_cons]
    rw [ih, List.length_drop]
    have hr : xs.length + 1 + step - 1 = xs.length + step := by omega
    rw [hr, Nat.add_div_right _ (by omega)]
    rcases Nat.lt_or_ge xs.length (step - 1) with h | h
    · have e : xs.length - (step - 1) + step - 1 = step - 1 := by omega
      rw [e, Nat.div_eq_of_lt (by omega), Nat.div_eq_of_lt (by omega)]
    · have e : xs.length - (step - 1) + step - 1 = xs.length := by omega
      rw [e]

/-- With `downsample_factor = 1` every sample becomes its own window. -/
theorem chunkWindows_one (l : List ℚ) : chunkWindows 1 l = l.map fun s => [s] := by
  refine chunkWindows_rec 1 (fun l => chunkWindows 1 l = l.map fun s => [s]) ?_ ?_ l
  · show chunkWindows 1 [] = List.map (fun s => [s]) []
    rw [chunkWindows_nil]; rfl
  · intro x xs ih
    rw [chunkWindows_cons]
    simp only [Nat.sub_self, List.take_zero, List.drop_zero] at *
    rw [ih]
    rfl

theorem ne_nil_of_mem_chunkWindows (step : ℕ) (l w : List ℚ)
    (hw : w ∈ chunkWindows step l) : w ≠ [] := by
  revert w
  refine chunkWindows_rec step (fun l => ∀ w, w ∈ chunkWindows step l → w ≠ []) ?_ ?_ l
  · intro w hw
    rw [chunkWindows_nil] at hw
    exact absurd hw (List.not_mem_nil w)
  · intro x xs ih w hw
    rw [chunkWindows_cons] at hw
    rcases List.mem_cons.mp hw with h | h
    · rw [h]; exact List.cons_ne_nil _ _
    · exact ih w h

/-! ### Closed forms for the accumulating loops -/

theorem foldl_flushWindow (thr : ℚ) (ws : List (List ℚ)) :
    ∀ acc : ChanAcc,
      ws.foldl (flushWindow thr) acc =
        ⟨acc.values ++ ws.flatMap fun w => [wMax w, wMin w],
         acc.flags ++ ws.flatMap fun w => [isClipped thr w, isClipped thr w]⟩ := by
  induction ws with
  | nil => intro acc; simp
  | cons w ws ih =>
    intro acc
    rw [List.foldl_cons, ih]
    simp [flushWindow, List.flatMap_cons]

theorem processChannelBlock_eq (factor : ℕ) (thr : ℚ) (acc : ChanAcc) (cd : List ℚ) :
    processChannelBlock factor thr acc cd =
      ⟨acc.values ++ (chunkWindows factor cd).flatMap fun w => [wMax w, wMin w],
       acc.flags ++ (chunkWindows factor cd).flatMap fun w => [isClipped thr w, isClipped thr w]⟩ :=
  foldl_flushWindow thr (chunkWindows factor cd) acc

theorem foldl_processChannelBlock (factor : ℕ) (thr : ℚ) (blocks : List (List ℚ)) :
    ∀ acc : ChanAcc,
      blocks.foldl (processChannelBlock factor thr) acc =
        ⟨acc.values ++ (allWindows factor blocks).flatMap fun w => [wMax w, wMin w],
         acc.flags ++ (allWindows factor blocks).flatMap fun w => [isClipped thr w, isClipped thr w]⟩ := by
  induction blocks with
  | nil => intro acc; simp [allWindows]
  | cons b bs ih =>
    intro acc
    rw [List.foldl_cons, processChannelBlock_eq, ih]
    simp [allWindows, List.flatMap_cons, List.flatMap_append, List.append_assoc]

/-- The per-channel reducer, in closed form: the two value points and the two
flag copies of each window, in window order. -/
theorem processChannelBlocks_eq (factor : ℕ) (thr : ℚ) (blocks : List (List ℚ)) :
    processChannelBlocks factor thr blocks =
      ⟨(allWindows factor blocks).flatMap fun w => [wMax w, wMin w],
       (allWindows factor blocks).flatMap fun w => [isClipped thr w, isClipped thr w]⟩ := by
  rw [processChannelBlocks, foldl_processChannelBlock]
  rfl

theorem flatMap_pair_length {α β : Type} (f g : α → β) (ws : List α) :
    (ws.flatMap fun w => [f w, g w]).length = 2 * ws.length := by
  induction ws with
  | nil => rfl
  | cons w ws ih =>
    rw [List.flatMap_cons]
    simp only [List.length_append, List.length_cons, ih, List.length_nil]
    omega

theorem values_length (factor : ℕ) (thr : ℚ) (blocks : List (List ℚ)) :
    (processChannelBlocks factor thr blocks).values.length =
      2 * (allWindows factor blocks).length := by
  rw [processChannelBlocks_eq]
  exact flatMap_pair_length _ _ _

theorem flags_length (factor : ℕ) (thr : ℚ) (blocks : List (List ℚ)) :
    (processChannelBlocks factor thr blocks).flags.length =
      2 * (allWindows factor blocks).length := by
  rw [processChannelBlocks_eq]
  exact flatMap_pair_length _ _ _

/-! ### Window extrema and the clip test -/

theorem foldl_max_mem (xs : List ℚ) : ∀ x : ℚ, xs.foldl max x ∈ x :: xs := by
  induction xs with
  | nil => intro x; simp
  | cons y ys ih =>
    intro x
    rw [List.foldl_cons]
    rcases max_choice x y with he | he <;> rw [he]
    · have h := ih x
      simp only [List.mem_cons] at h ⊢
      tauto
    · have h := ih y
      simp only [List.mem_cons] at h ⊢
      tauto

theorem foldl_min_mem (xs : List ℚ) : ∀ x : ℚ, xs.foldl min x ∈ x :: xs := by
  induction xs with
  | nil => intro x; simp
  | cons y ys ih =>
    intro x
    rw [List.foldl_cons]
    rcases min_choice x y with he | he <;> rw [he]
    · have h := ih x
      simp only [List.mem_cons] at h ⊢
      tauto
    · have h := ih y
      simp only [List.mem_cons] at h ⊢
      tauto

theorem le_foldl_max (xs : List ℚ) : ∀ x : ℚ, x ≤ xs.foldl max x := by
  induction xs with
  | nil => intro x; simp
  | cons y ys ih =>
    intro x
    rw [List.foldl_cons]
    exact le_trans (le_max_left x y) (ih (max x y))

theorem foldl_min_le (xs : List ℚ) : ∀ x : ℚ, xs.foldl min x ≤ x := by
  induction xs with
  | nil => intro x; simp
  | cons y ys ih =>
    intro x
    rw [List.foldl_cons]
    exact le_trans (ih (min x y)) (min_le_left x y)

theorem wMax_mem (w : List ℚ) (h : w ≠ []) : wMax w ∈ w := by
  cases w with
  | nil => exact absurd rfl h
  | cons x xs => exact foldl_max_mem xs x

theorem wMin_mem (w : List ℚ) (h : w ≠ []) : wMin w ∈ w := by
  cases w with
  | nil => exact absurd rfl h
  | cons x xs => exact foldl_min_mem xs x

theorem wMin_le_wMax (w : List ℚ) (h : w ≠ []) : wMin w ≤ wMax w := by
  cases w with
  | nil => exact absurd rfl h
  | cons x xs => exact le_trans (foldl_min_le xs x) (le_foldl_max xs x)

/-- The clip test of line 72, characterized: true iff some sample of the
window has absolute value at or above the threshold. -/
theorem isClipped_iff (thr : ℚ) (w : List ℚ) :
    isClipped thr w = true ↔ ∃ s ∈ w, thr ≤ |s| := by
  simp [isClipped, List.any_eq_true]

/-! ### Stepping the block slicing over constant streams -/

theorem chunkWindows_replicate (step n : ℕ) (hs : 1 ≤ step) (hn : n ≠ 0) (a : ℚ) :
    chunkWindows step (List.replicate n a) =
      List.replicate (min step n) a :: chunkWindows step (List.replicate (n - step) a) := by
  obtain ⟨m, rfl⟩ : ∃ m, n = m + 1 := ⟨n - 1, by omega⟩
  rw [List.replicate_succ, chunkWindows_cons]
  congr 1
  · rw [List.take_replicate, ← List.replicate_succ]
    congr 1
    omega
  · rw [List.drop_replicate]
    congr 2
    omega

/-! ### The time axis -/

theorem linspace_length (d : ℚ) (n : ℕ) : (linspace d n).length = n := by
  unfold linspace
  split
  · simp only [List.length_nil]; omega
  · split
    · simp only [List.length_cons, List.length_nil]; omega
    · rw [List.length_map, List.length_range]

theorem linspace_eq_of_two_le (d : ℚ) (n : ℕ) (h : 2 ≤ n) :
    linspace d n = (List.range n).map fun i : ℕ => d * (i : ℚ) / ((n : ℚ) - 1) := by
  unfold linspace
  rw [if_neg (by omega), if_neg (by omega)]

theorem linspace_getD (d : ℚ) (n i : ℕ) (h2 : 2 ≤ n) (hi : i < n) :
    (linspace d n).getD i 0 = d * i / ((n : ℚ) - 1) := by
  rw [linspace_eq_of_two_le d n h2, List.getD_eq_getElem?_getD, List.getElem?_map,
    List.getElem?_range hi]
  rfl

theorem cast_sub_one_pos (n : ℕ) (h2 : 2 ≤ n) : (0 : ℚ) < (n : ℚ) - 1 := by
  have : (2 : ℚ) ≤ (n : ℚ) := by exact_mod_cast h2
  linarith

/-- Total number of windows formed by the code's double loop (blocks of
`step` frames, windows of `factor` samples restarted inside each block), as a
function of the stream length alone: each of the `length / step` full blocks
contributes `ceil(step / factor)` windows and the final partial block of
`length % step` frames contributes `ceil((length % step) / factor)` windows. -/
theorem allWindows_length_eq (factor step : ℕ) (hf : 1 ≤ factor) (hs : 1 ≤ step)
    (l : List ℚ) :
    (allWindows factor (chunkWindows step l)).length =
      (l.length / step) * ((step + factor - 1) / factor) +
        ((l.length % step) + factor - 1) / factor := by
  refine chunkWindows_rec step
    (fun l => (allWindows factor (chunkWindows step l)).length =
      (l.length / step) * ((step + factor - 1) / factor) +
        ((l.length % step) + factor - 1) / factor) ?_ ?_ l
  · show (allWindows factor (chunkWindows step [])).length =
      (List.length [] / step) * ((step + factor - 1) / factor) +
        ((List.length [] % step) + factor - 1) / factor
    rw [chunkWindows_nil]
    simp only [allWindows, List.flatMap_nil, List.length_nil, Nat.zero_div,
      Nat.zero_mul, Nat.zero_mod, Nat.zero_add]
    rw [show (factor - 1) / factor = 0 from Nat.div_eq_of_lt (by omega)]
  · intro x xs ih
    rw [chunkWindows_cons]
    simp only [allWindows, List.flatMap_cons, List.length_append, List.length_cons] at ih ⊢
    rw [ih, chunkWindows_length factor hf, List.length_drop, List.length_cons,
      List.length_take]
    rcases Nat.lt_or_ge xs.length (step - 1) with h | h
    · -- the whole remaining stream fits into one final partial block
      have e1 : min (step - 1) xs.length = xs.length := by omega
      have e2 : xs.length - (step - 1) = 0 := by omega
      have e3 : (xs.length + 1) / step = 0 := Nat.div_eq_of_lt (by omega)
      have e4 : (xs.length + 1) % step = xs.length + 1 := Nat.mod_eq_of_lt (by omega)
      rw [e1, e2, e3, e4]
      simp only [Nat.zero_div, Nat.zero_mul, Nat.zero_mod, Nat.zero_add]
      rw [show (factor - 1) / factor = 0 from Nat.div_eq_of_lt (by omega)]
      exact Nat.add_zero _
    · -- a full block of `step` frames is split off
      have e1 : min (step - 1) xs.length = step - 1 := by omega
      have e2 : xs.length - (step - 1) = xs.length + 1 - step := by omega
      have e3 : (xs.length + 1) / step = (xs.length + 1 - step) / step + 1 :=
        Nat.div_eq_sub_div (by omega) (by omega)
      have e4 : (xs.length + 1) % step = (xs.length + 1 - step) % step :=
        Nat.mod_eq_sub_mod (by omega)
      have e5 : step - 1 + 1 = step := by omega
      rw [e1, e2, e3, e4, e5, Nat.succ_mul]
      ring

/-! ### Output length of the reducer on a non-empty stream -/

theorem two_le_values_length (factor : ℕ) (thr : ℚ) (chunkSize : ℕ) (samples : List ℚ)
    (h : samples ≠ []) :
    2 ≤ (reduceBlocked factor thr chunkSize samples).values.length := by
  rw [reduceBlocked, values_length]
  obtain ⟨x, xs, rfl⟩ := List.exists_cons_of_ne_nil h
  rw [chunkWindows_cons]
  have h1 : 1 ≤ (chunkWindows factor (x :: xs.take (chunkSize - 1))).length := by
    rw [chunkWindows_cons]
    simp
  simp only [allWindows, List.flatMap_cons, List.length_append]
  omega

/-! ### Claims -/

/-- Claim C2 (code bug): blocking is not transparent.  With
`downsample_factor = 2` and `chunk_frame_count = 3`, the stream
`[0, 0, 0, 0]` is windowed as `[s0,s1],[s2]` then `[s3]` because the slicing
loop restarts at `j = 0` in every block, while the unblocked reference windows
it as `[s0,s1],[s2,s3]` — the emitted sequences differ (6 points vs 4). -/
theorem claim2_blocking_changes_output :
    reduceBlocked 2 clipThresholdDefault 3 [0, 0, 0, 0] ≠
      specUnchunkedReduce 2 clipThresholdDefault [0, 0, 0, 0] := by
  intro h
  have h1 : (reduceBlocked 2 clipThresholdDefault 3 [0, 0, 0, 0]).values.length = 6 := rfl
  have h2 : (specUnchunkedReduce 2 clipThresholdDefault [0, 0, 0, 0]).values.length = 4 := rfl
  rw [h, h2] at h1
  exact absurd h1 (by omega)

/-- Claim C3: a window's clip flag is true iff at least one of its samples has
absolute value at or above the clip threshold, and the flag is emitted twice —
once for the max point and once for the min point of the window.  The
hard-coded threshold is `1.0 - 1e-6`. -/
theorem claim3_clip_flag_iff (factor : ℕ) (thr : ℚ) (blocks : List (List ℚ))
    (w : List ℚ) (_hw : w ∈ allWindows factor blocks) :
    (processChannelBlocks factor thr blocks).flags =
      (allWindows factor blocks).flatMap
        (fun v => [isClipped thr v, isClipped thr v]) ∧
    (isClipped thr w = true ↔ ∃ s ∈ w, thr ≤ |s|) ∧
    clipThresholdDefault = 1 - 1 / 1000000 := by
  refine ⟨?_, isClipped_iff thr w, rfl⟩
  rw [processChannelBlocks_eq]

theorem claim3_clip_flag_iff_witness :
    ([(1 : ℚ)] ∈ allWindows 1 [[(1 : ℚ), 0]]) ∧
    ((processChannelBlocks 1 clipThresholdDefault [[(1 : ℚ), 0]]).flags =
        (allWindows 1 [[(1 : ℚ), 0]]).flatMap
          (fun v => [isClipped clipThresholdDefault v, isClipped clipThresholdDefault v]) ∧
      (isClipped clipThresholdDefault [(1 : ℚ)] = true ↔
        ∃ s ∈ [(1 : ℚ)], clipThresholdDefault ≤ |s|) ∧
      clipThresholdDefault = 1 - 1 / 1000000) :=
  ⟨by simp [allWindows, chunkWindows_one],
   claim3_clip_flag_iff 1 clipThresholdDefault [[(1 : ℚ), 0]] [(1 : ℚ)]
     (by simp [allWindows, chunkWindows_one])⟩

/-- Claim C4: each emitted window contributes exactly two points, its max then
its min, the max is at least the min, and both are members of the window's raw
samples. -/
theorem claim4_two_points_max_then_min (factor : ℕ) (thr : ℚ)
    (blocks : List (List ℚ)) (w : List ℚ) (hw : w ∈ allWindows factor blocks) :
    (processChannelBlocks factor thr blocks).values =
      (allWindows factor blocks).flatMap (fun v => [wMax v, wMin v]) ∧
    wMin w ≤ wMax w ∧ wMax w ∈ w ∧ wMin w ∈ w := by
  have hne : w ≠ [] := by
    rw [allWindows, List.mem_flatMap] at hw
    obtain ⟨b, _, hwb⟩ := hw
    exact ne_nil_of_mem_chunkWindows factor b w hwb
  refine ⟨?_, wMin_le_wMax w hne, wMax_mem w hne, wMin_mem w hne⟩
  rw [processChannelBlocks_eq]

theorem claim4_two_points_max_then_min_witness :
    ([(2 : ℚ), 1] ∈ allWindows 2 [[(2 : ℚ), 1]]) ∧
    ((processChannelBlocks 2 clipThresholdDefault [[(2 : ℚ), 1]]).values =
        (allWindows 2 [[(2 : ℚ), 1]]).flatMap (fun v => [wMax v, wMin v]) ∧
      wMin [(2 : ℚ), 1] ≤ wMax [(2 : ℚ), 1] ∧
      wMax [(2 : ℚ), 1] ∈ [(2 : ℚ), 1] ∧ wMin [(2 : ℚ), 1] ∈ [(2 : ℚ), 1]) :=
  ⟨by simp [allWindows, chunkWindows_cons, chunkWindows_nil],
   claim4_two_points_max_then_min 2 clipThresholdDefault [[(2 : ℚ), 1]] [(2 : ℚ), 1]
     (by simp [allWindows, chunkWindows_cons, chunkWindows_nil])⟩

/-- Claim C5: the derived downsample factor is `max 1 (total_frames / target_points)`
(integer floor division); in particular it is 1 whenever
`total_frames ≤ target_points`, and with factor 1 every sample becomes its own
window. -/
theorem claim5_downsample_factor (total target : ℕ) (ht : 0 < target) :
    downsampleFactor total target = max 1 (total / target) ∧
    (total ≤ target → downsampleFactor total target = 1) ∧
    (∀ l : List ℚ, chunkWindows 1 l = l.map fun s => [s]) := by
  refine ⟨?_, ?_, chunkWindows_one⟩
  · unfold downsampleFactor
    by_cases h : target < total
    · rw [if_pos h]
      have h1 : 1 ≤ total / target := (Nat.one_le_div_iff ht).mpr (le_of_lt h)
      omega
    · rw [if_neg h]
      have h1 : total / target ≤ 1 := by
        calc total / target ≤ target / target := Nat.div_le_div_right (by omega)
          _ = 1 := Nat.div_self ht
      omega
  · intro _
    unfold downsampleFactor
    rw [if_neg (by omega)]

theorem claim5_downsample_factor_witness :
    0 < 50000 ∧
    (downsampleFactor 7 50000 = max 1 (7 / 50000) ∧
      (7 ≤ 50000 → downsampleFactor 7 50000 = 1) ∧
      (∀ l : List ℚ, chunkWindows 1 l = l.map fun s => [s])) :=
  ⟨by decide, claim5_downsample_factor 7 50000 (by decide)⟩

/-- Claim C7 (counterexample): on a zero-frame stream the pipeline silently
produces empty per-channel output and an empty time axis; it reaches the
renderer without signalling any typed failure — no `EmptyStreamError` exists
anywhere in the code. -/
theorem claim7_empty_stream_produces_empty_output :
    pipeline 44100 ([] : List ℚ) = ⟨[], [], []⟩ := rfl

/-- Claim C7 (amended): for `total_frames = 0` the core produces empty value,
flag and time-axis sequences rather than failing; the renderer's subsequent
`time_downsampled[0]` access then has no value to read (head of the empty time
axis), and the resulting exception is caught and printed by the blanket
`except` handler — nothing typed is surfaced. -/
theorem claim7_empty_stream_behavior (samplerate : ℕ) :
    pipeline samplerate ([] : List ℚ) = ⟨[], [], []⟩ ∧
    (pipeline samplerate ([] : List ℚ)).timeAxis.head? = none :=
  ⟨rfl, rfl⟩

/-- Claim C9: the pipeline is deterministic — two runs on equal inputs and
equal configuration produce identical value sequences, clip-flag sequences and
time axes.  The embedding threads all state explicitly, so equality of runs is
definitional: there is no hidden state and no randomness in the data path. -/
theorem claim9_deterministic (sr₁ sr₂ : ℕ) (s₁ s₂ : List ℚ)
    (hsr : sr₁ = sr₂) (hs : s₁ = s₂) :
    (pipeline sr₁ s₁).values = (pipeline sr₂ s₂).values ∧
    (pipeline sr₁ s₁).flags = (pipeline sr₂ s₂).flags ∧
    (pipeline sr₁ s₁).timeAxis = (pipeline sr₂ s₂).timeAxis := by
  subst hsr
  subst hs
  exact ⟨rfl, rfl, rfl⟩

theorem claim9_deterministic_witness :
    (44100 = 44100) ∧ ([(1 : ℚ) / 2] = [(1 : ℚ) / 2]) ∧
    ((pipeline 44100 [(1 : ℚ) / 2]).values = (pipeline 44100 [(1 : ℚ) / 2]).values ∧
      (pipeline 44100 [(1 : ℚ) / 2]).flags = (pipeline 44100 [(1 : ℚ) / 2]).flags ∧
      (pipeline 44100 [(1 : ℚ) / 2]).timeAxis = (pipeline 44100 [(1 : ℚ) / 2]).timeAxis) :=
  ⟨rfl, rfl, claim9_deterministic 44100 44100 [(1 : ℚ) / 2] [(1 : ℚ) / 2] rfl rfl⟩

/-- Claim C10: the clip-status sequence always has exactly the same length as
the value sequence: every flushed window appends two values and two copies of
its flag, so the invariant is preserved by each flush, by each block, and by
any run of blocks from any state satisfying it. -/
theorem claim10_flags_track_values (factor : ℕ) (thr : ℚ) (acc : ChanAcc)
    (h : acc.values.length = acc.flags.length) :
    (∀ w, (flushWindow thr acc w).values.length = (flushWindow thr acc w).flags.length ∧
      (flushWindow thr acc w).values.length = acc.values.length + 2 ∧
      (flushWindow thr acc w).flags = acc.flags ++ [isClipped thr w, isClipped thr w]) ∧
    (∀ cd, (processChannelBlock factor thr acc cd).values.length =
      (processChannelBlock factor thr acc cd).flags.length) ∧
    (∀ blocks : List (List ℚ),
      (blocks.foldl (processChannelBlock factor thr) acc).values.length =
        (blocks.foldl (processChannelBlock factor thr) acc).flags.length) := by
  refine ⟨?_, ?_, ?_⟩
  · intro w
    refine ⟨?_, ?_, rfl⟩ <;> simp [flushWindow, h]
  · intro cd
    rw [processChannelBlock_eq]
    simp only [List.length_append, flatMap_pair_length]
    rw [h]
  · intro blocks
    rw [foldl_processChannelBlock]
    simp only [List.length_append, flatMap_pair_length]
    rw [h]

theorem claim10_flags_track_values_witness :
    ((⟨[(1 : ℚ)], [true]⟩ : ChanAcc).values.length =
      (⟨[(1 : ℚ)], [true]⟩ : ChanAcc).flags.length) ∧
    ((∀ w, (flushWindow clipThresholdDefault ⟨[(1 : ℚ)], [true]⟩ w).values.length =
        (flushWindow clipThresholdDefault ⟨[(1 : ℚ)], [true]⟩ w).flags.length ∧
      (flushWindow clipThresholdDefault ⟨[(1 : ℚ)], [true]⟩ w).values.length =
        (⟨[(1 : ℚ)], [true]⟩ : ChanAcc).values.length + 2 ∧
      (flushWindow clipThresholdDefault ⟨[(1 : ℚ)], [true]⟩ w).flags =
        (⟨[(1 : ℚ)], [true]⟩ : ChanAcc).flags ++
          [isClipped clipThresholdDefault w, isClipped clipThresholdDefault w]) ∧
    (∀ cd, (processChannelBlock 1 clipThresholdDefault ⟨[(1 : ℚ)], [true]⟩ cd).values.length =
      (processChannelBlock 1 clipThresholdDefault ⟨[(1 : ℚ)], [true]⟩ cd).flags.length) ∧
    (∀ blocks : List (List ℚ),
      (blocks.foldl (processChannelBlock 1 clipThresholdDefault) ⟨[(1 : ℚ)], [true]⟩).values.length =
        (blocks.foldl (processChannelBlock 1 clipThresholdDefault) ⟨[(1 : ℚ)], [true]⟩).flags.length)) :=
  ⟨rfl, claim10_flags_track_values 1 clipThresholdDefault ⟨[(1 : ℚ)], [true]⟩ rfl⟩

/-- Claim C6: for a non-empty stream with per-channel output length `N`, the
time axis is `N` evenly spaced, monotonically non-decreasing values whose
first element is 0 and whose last element is the total duration. -/
theorem claim6_time_axis (d : ℚ) (hd : 0 ≤ d) (factor chunkSize : ℕ) (thr : ℚ)
    (samples : List ℚ) (hs : samples ≠ []) (N : ℕ)
    (hN : N = (reduceBlocked factor thr chunkSize samples).values.length) :
    (linspace d N).length = N ∧
    (linspace d N).getD 0 0 = 0 ∧
    (linspace d N).getD (N - 1) 0 = d ∧
    (∀ i, i + 1 < N → (linspace d N).getD i 0 ≤ (linspace d N).getD (i + 1) 0) ∧
    (∀ i, i + 1 < N →
      (linspace d N).getD (i + 1) 0 - (linspace d N).getD i 0 = d / ((N : ℚ) - 1)) := by
  have h2 : 2 ≤ N := hN ▸ two_le_values_length factor thr chunkSize samples hs
  have hpos := cast_sub_one_pos N h2
  refine ⟨linspace_length d N, ?_, ?_, ?_, ?_⟩
  · rw [linspace_getD d N 0 h2 (by omega)]
    norm_num
  · rw [linspace_getD d N (N - 1) h2 (by omega)]
    have hcast : ((N - 1 : ℕ) : ℚ) = (N : ℚ) - 1 := by
      rw [Nat.cast_sub (by omega)]
      norm_num
    rw [hcast, mul_div_assoc, div_self (ne_of_gt hpos), mul_one]
  · intro i hi
    rw [linspace_getD d N i h2 (by omega), linspace_getD d N (i + 1) h2 (by omega)]
    gcongr
    exact_mod_cast Nat.le_succ i
  · intro i hi
    rw [linspace_getD d N i h2 (by omega), linspace_getD d N (i + 1) h2 (by omega),
      div_sub_div_same]
    congr 1
    push_cast
    ring

theorem claim6_time_axis_witness :
    (0 ≤ (1 : ℚ)) ∧ ([(1 : ℚ) / 2] ≠ []) ∧
    (2 = (reduceBlocked 1 clipThresholdDefault 5 [(1 : ℚ) / 2]).values.length) ∧
    ((linspace 1 2).length = 2 ∧
      (linspace 1 2).getD 0 0 = 0 ∧
      (linspace 1 2).getD (2 - 1) 0 = 1 ∧
      (∀ i, i + 1 < 2 → (linspace 1 2).getD i 0 ≤ (linspace 1 2).getD (i + 1) 0) ∧
      (∀ i, i + 1 < 2 →
        (linspace 1 2).getD (i + 1) 0 - (linspace 1 2).getD i 0 = 1 / ((2 : ℚ) - 1))) :=
  ⟨zero_le_one, by simp, rfl,
   claim6_time_axis 1 zero_le_one 1 5 clipThresholdDefault [(1 : ℚ) / 2] (by simp) 2 rfl⟩

/-- Claim C8: the concrete 10-sample scenario at factor 1 and threshold 0.99:
one block of 10 samples, each window is the sample itself, the output has 20
points (each sample as max then min), and the clip flags are true exactly for
the pairs of samples 1, 2, 4, 7, 8. -/
theorem claim8_concrete_scenario :
    (reduceBlocked 1 (99 / 100) 10
        [1/10, 1, -1, 2/10, 99/100, -1/2, 0, 999999/1000000, -999999/1000000, 3/10]).values.length
      = 20 ∧
    chunkWindows 1
        [(1 : ℚ)/10, 1, -1, 2/10, 99/100, -1/2, 0, 999999/1000000, -999999/1000000, 3/10] =
      [[1/10], [1], [-1], [2/10], [99/100], [-1/2], [0],
        [999999/1000000], [-999999/1000000], [3/10]] ∧
    (reduceBlocked 1 (99 / 100) 10
        [1/10, 1, -1, 2/10, 99/100, -1/2, 0, 999999/1000000, -999999/1000000, 3/10]).values =
      [1/10, 1/10, 1, 1, -1, -1, 2/10, 2/10, 99/100, 99/100, -1/2, -1/2, 0, 0,
        999999/1000000, 999999/1000000, -999999/1000000, -999999/1000000, 3/10, 3/10] ∧
    (reduceBlocked 1 (99 / 100) 10
        [1/10, 1, -1, 2/10, 99/100, -1/2, 0, 999999/1000000, -999999/1000000, 3/10]).flags =
      [false, false, true, true, true, true, false, false, true, true,
        false, false, false, false, true, true, true, true, false, false] := by
  refine ⟨rfl, ?_, rfl, ?_⟩
  · rw [chunkWindows_one]
    rfl
  · show [isClipped (99/100) [(1:ℚ)/10], isClipped (99/100) [(1:ℚ)/10],
      isClipped (99/100) [(1:ℚ)], isClipped (99/100) [(1:ℚ)],
      isClipped (99/100) [(-1:ℚ)], isClipped (99/100) [(-1:ℚ)],
      isClipped (99/100) [(2:ℚ)/10], isClipped (99/100) [(2:ℚ)/10],
      isClipped (99/100) [(99:ℚ)/100], isClipped (99/100) [(99:ℚ)/100],
      isClipped (99/100) [(-1:ℚ)/2], isClipped (99/100) [(-1:ℚ)/2],
      isClipped (99/100) [(0:ℚ)], isClipped (99/100) [(0:ℚ)],
      isClipped (99/100) [(999999:ℚ)/1000000], isClipped (99/100) [(999999:ℚ)/1000000],
      isClipped (99/100) [(-999999:ℚ)/1000000], isClipped (99/100) [(-999999:ℚ)/1000000],
      isClipped (99/100) [(3:ℚ)/10], isClipped (99/100) [(3:ℚ)/10]] = _
    simp only [isClipped, List.any_cons, List.any_nil, Bool.or_false, le_abs]
    norm_num

/-- Claim C1 (code bug): the per-channel output length deviates from
`2 * ceil(total_frames / downsample_factor)` whenever a block boundary is not
aligned to the window size.  At samplerate 44100 (chunk 220500 frames) with
550000 frames the factor is 11; the blocks have 220500, 220500 and 109000
frames, each windowed afresh, giving `2 * (20046 + 20046 + 9910) = 100004`
points, while the claimed formula gives `2 * ceil(550000 / 11) = 100000`. -/
theorem claim1_block_restart_breaks_length_formula (samples : List ℚ)
    (hlen : samples.length = 550000) :
    downsampleFactor samples.length targetPoints = 11 ∧
    (pipeline 44100 samples).values.length = 100004 ∧
    2 * ((samples.length + 11 - 1) / 11) = 100000 := by
  refine ⟨by rw [hlen]; decide, ?_, by rw [hlen]⟩
  simp only [pipeline]
  rw [hlen, show downsampleFactor 550000 targetPoints = 11 from by decide,
    show (44100 * 5 : ℕ) = 220500 from by norm_num,
    reduceBlocked, values_length,
    allWindows_length_eq 11 220500 (by norm_num) (by norm_num), hlen]

theorem claim1_block_restart_breaks_length_formula_witness :
    ((List.replicate 550000 (0 : ℚ)).length = 550000) ∧
    (downsampleFactor (List.replicate 550000 (0 : ℚ)).length targetPoints = 11 ∧
      (pipeline 44100 (List.replicate 550000 (0 : ℚ))).values.length = 100004 ∧
      2 * (((List.replicate 550000 (0 : ℚ)).length + 11 - 1) / 11) = 100000) :=
  ⟨List.length_replicate 550000 0,
   claim1_block_restart_breaks_length_formula (List.replicate 550000 0)
     (List.length_replicate 550000 0)⟩

end GenWaveforms
